import Mathlib

set_option autoImplicit false

/-!
Shallow embedding of the pimotors motor-set orchestration engine
(`motorset.py`): the ordered motor registry, the shared-service broker,
the uniform dispatch protocol (`_listcall` / `_delist`), the periodic
ticker, and shutdown.  Motor units themselves (class `dcmotorbasic.motor`)
are external collaborators, modelled from the spec where needed.

Python object references are modelled with an explicit heap: the motor
mapping binds names to unit ids, and the heap binds unit ids to unit
states.  Mutating a motor rewrites the heap entry; the mapping itself is
untouched, exactly as in Python where the dict holds references.
-/

namespace Pimotors

/-- Association-list lookup: first entry whose key matches (Python dict lookup). -/
def alookup {κ α : Type} [DecidableEq κ] : List (κ × α) → κ → Option α
  | [], _ => none
  | (k, v) :: rest, q => if k = q then some v else alookup rest q

/-- Replace the value at the first entry whose key matches; no-op when the key is absent. -/
def aupdate {κ α : Type} [DecidableEq κ] : List (κ × α) → κ → α → List (κ × α)
  | [], _, _ => []
  | (k, v) :: rest, q, w => if k = q then (k, w) :: rest else (k, v) :: aupdate rest q w

/-- Python dict assignment `d[k] = v` on an insertion-ordered dict: replace in
place when the key exists, append otherwise. -/
def dictInsert {κ α : Type} [DecidableEq κ] (l : List (κ × α)) (k : κ) (v : α) : List (κ × α) :=
  if (alookup l k).isSome then aupdate l k v else l ++ [(k, v)]

/-- Modelled from the spec: lifecycle phase of a motor unit (§4.6 state machine);
the motor class `dcmotorbasic.motor` is not part of src. -/
inductive Phase where
  | ready
  | running
  | idle
  | closed
deriving DecidableEq, Repr

/-- Python values returned by per-motor methods. -/
inductive Value where
  | num (q : ℚ)
  | bool (b : Bool)
  | pair (a b : ℚ)
  | vnone
deriving DecidableEq, Repr

/-- Modelled from the spec: the per-motor state of `dcmotorbasic.motor`
(not part of src): commanded duty cycle and frequency, inversion flag,
optional target speed, feedback parameter, cached sensor readings,
speed limits and lifecycle phase (§3 Motor Unit, §4.6). -/
structure MotorUnit where
  name : String
  mdrive : String
  dutyCycle : ℚ
  freq : ℚ
  inverted : Bool
  targetSpeed : Option ℚ
  fbParam : ℚ
  lastRPMv : ℚ
  lastPositionv : ℚ
  speedLims : ℚ × ℚ
  phase : Phase
deriving DecidableEq, Repr

/-- Wrap an optional rational as a Python return value. -/
def optVal : Option ℚ → Value
  | none => Value.vnone
  | some q => Value.num q

/-- A per-motor method as dispatched by `_listcall` via `getattr`: it may
mutate the unit and returns a value. -/
def Method : Type := MotorUnit → MotorUnit × Value

/-- Modelled from the spec: `lastPosition` query, no mutation. -/
def unitLastPosition : Method := fun u => (u, Value.num u.lastPositionv)

/-- Modelled from the spec: `lastRPM` query, no mutation. -/
def unitLastRPM : Method := fun u => (u, Value.num u.lastRPMv)

/-- Modelled from the spec: `invert` sets the logical direction flip and
returns the new flag (§6 drive collaborator). -/
def unitInvert (inv : Bool) : Method := fun u => ({u with inverted := inv}, Value.bool inv)

/-- Modelled from the spec: `frequency` leaves the frequency unchanged when
given none and returns the current value. -/
def unitFrequency (f : Option ℚ) : Method := fun u =>
  match f with
  | none => (u, Value.num u.freq)
  | some q => ({u with freq := q}, Value.num q)

/-- Modelled from the spec: `DC` sets the commanded duty cycle and returns it;
a zero command moves the unit to Idle, a non-zero one to Running (§4.6). -/
def unitDC (d : ℚ) : Method := fun u =>
  ({u with dutyCycle := d, phase := if d = 0 then Phase.idle else Phase.running}, Value.num d)

/-- Modelled from the spec: `speedLimits` query, no mutation. -/
def unitSpeedLimits : Method := fun u => (u, Value.pair u.speedLims.1 u.speedLims.2)

/-- Modelled from the spec: `speed` optionally sets the target rpm and returns
the current (new if set) value. -/
def unitSpeed (s : Option ℚ) : Method := fun u =>
  match s with
  | none => (u, optVal u.targetSpeed)
  | some q =>
    ({u with targetSpeed := some q
             phase := if q = 0 then u.phase else Phase.running}, Value.num q)

/-- Modelled from the spec: `feedbackParam` optionally sets a single tuning
parameter and returns the current (new if set) value. -/
def unitFeedbackParam (p : Option ℚ) : Method := fun u =>
  match p with
  | none => (u, Value.num u.fbParam)
  | some q => ({u with fbParam := q}, Value.num q)

/-- Modelled from the spec: `targetSpeed` optionally sets the target speed;
a non-zero target moves the unit to Running (§4.6). -/
def unitTargetSpeed (t : Option ℚ) : Method := fun u =>
  match t with
  | none => (u, optVal u.targetSpeed)
  | some q =>
    ({u with targetSpeed := some q
             phase := if q = 0 then u.phase else Phase.running}, Value.num q)

/-- Modelled from the spec: `stop` immediately commands zero drive output and
moves the unit to Idle (§4.5, §4.6). -/
def unitStop (u : MotorUnit) : MotorUnit :=
  {u with dutyCycle := 0, phase := Phase.idle}

/-- The `stop` operation packaged as a dispatchable method (returns None). -/
def unitStopM : Method := fun u => (unitStop u, Value.vnone)

/-- Modelled from the spec: per-unit `close` marks the unit Closed (§4.6). -/
def unitClose (u : MotorUnit) : MotorUnit :=
  {u with phase := Phase.closed}

/-- The per-unit `close` packaged as a dispatchable method. -/
def unitCloseM : Method := fun u => (unitClose u, Value.vnone)

/-- A shared service instance held by the broker.  The allocation id models
the Python object reference (reference equality = same id); the stored spec
records which constructor arguments built it. -/
structure ServiceInst where
  sid : ℕ
  className : String
  servargs : List (String × ℚ)
deriving DecidableEq, Repr

/-- The optional rotation-sense configuration inside a motor spec
(`mdef['rotationsense']`), which may or may not carry a `pins` entry. -/
structure RotSense where
  className : String
  pins : Option (List ℕ)
deriving DecidableEq, Repr

/-- One motor specification (one dict of the `motordefs` list). -/
structure MotorDef where
  name : String
  className : String
  mdrive : String
  rotationsense : Option RotSense
deriving DecidableEq, Repr

/-- The optional shared-monitor configuration (`quadmonitor` argument). -/
structure QuadSpec where
  className : String
deriving DecidableEq, Repr

/-- The shared quadrature-monitor instance: built from the collected
`{motor name → pin pair}` mapping and the supplied spec. -/
structure QuadMon where
  motorquads : List (String × List ℕ)
  spec : QuadSpec
deriving DecidableEq, Repr

/-- The state of a `motorset` instance: fresh-id counter, the heap of motor
units (id → unit), the ordered motor mapping `self.motors` (name → unit id),
the broker `self.sharedServices`, and `self.quadmon`. -/
structure MSState where
  nextId : ℕ
  units : List (ℕ × MotorUnit)
  motors : List (String × ℕ)
  sharedServices : List (String × ServiceInst)
  quadmon : Option QuadMon
deriving DecidableEq, Repr

/-- Python exceptions raised by the dispatch layer. -/
inductive PyError where
  | keyError (name : String)
  | valueError (msg : String)
deriving DecidableEq, Repr

/-- Result of a call that may raise. -/
inductive MResult (α : Type) where
  | ok (a : α)
  | error (e : PyError)
deriving DecidableEq, Repr

/-- The shape of a dispatch result: a dict keyed by motor name, or a single
unwrapped per-motor value. -/
inductive CallResult where
  | dict (entries : List (String × Value))
  | single (v : Value)
deriving DecidableEq, Repr

/-- The `mlist` selector: `None`, a single name string, or an iterable of names. -/
inductive Selector where
  | all
  | one (n : String)
  | many (l : List String)
deriving DecidableEq, Repr

/-- Look up the unit bound to a name through the mapping and the heap. -/
def getMotorUnit (st : MSState) (n : String) : Option MotorUnit :=
  (alookup st.motors n).bind (alookup st.units)

/-- Apply a method to the unit at a heap id, writing the mutated unit back.
A dangling id (never produced by construction) is a no-op returning None. -/
def applyMethod (f : Method) (uid : ℕ) (st : MSState) : MSState × Value :=
  match alookup st.units uid with
  | none => (st, Value.vnone)
  | some u =>
    let r := f u
    ({st with units := aupdate st.units uid r.1}, r.2)

/-- The `units is None` branch of `_listcall`: run the method against every
motor in mapping order, keying the result dict by each unit's own name. -/
def runAll (f : Method) : List (String × ℕ) → MSState → List (String × Value) →
    MSState × List (String × Value)
  | [], st, acc => (st, acc)
  | (_, uid) :: rest, st, acc =>
    match alookup st.units uid with
    | none => runAll f rest st acc
    | some u =>
      runAll f rest {st with units := aupdate st.units uid (f u).1}
        (dictInsert acc u.name (f u).2)

/-- The iterable branch of `_listcall`: a dict comprehension over the given
names, looking each name up as it is reached; an unknown name raises KeyError
there, after the earlier names' methods have already run. -/
def runMany (f : Method) : List String → MSState → List (String × Value) →
    MSState × MResult (List (String × Value))
  | [], st, acc => (st, MResult.ok acc)
  | m :: rest, st, acc =>
    match alookup st.motors m with
    | none => (st, MResult.error (PyError.keyError m))
    | some uid =>
      runMany f rest (applyMethod f uid st).1 (dictInsert acc m (applyMethod f uid st).2)

/-- `_listcall(units, method, *args)`: dispatch a per-motor method according
to the selector.  No validation pass: the single-name branch indexes the dict
directly (KeyError when absent) and the iterable branch fails at the first
unknown name with earlier mutations kept. -/
def listcall (sel : Selector) (f : Method) (st : MSState) : MSState × MResult CallResult :=
  match sel with
  | Selector.all =>
    match runAll f st.motors st [] with
    | (st', entries) => (st', MResult.ok (CallResult.dict entries))
  | Selector.one n =>
    match alookup st.motors n with
    | none => (st, MResult.error (PyError.keyError n))
    | some uid =>
      match applyMethod f uid st with
      | (st', v) => (st', MResult.ok (CallResult.single v))
  | Selector.many l =>
    match runMany f l st [] with
    | (st', MResult.ok entries) => (st', MResult.ok (CallResult.dict entries))
    | (st', MResult.error e) => (st', MResult.error e)

/-- What `self.stopMotor()` with no argument does: stop every motor in
mapping order (`_delist(None)` returns all units). -/
def stopAllMotors (st : MSState) : MSState :=
  (runAll unitStopM st.motors st []).1

/-- First name of the list that is not a key of the motor mapping, if any
(the validation loop of `_delist`). -/
def firstUnknown (st : MSState) : List String → Option String
  | [] => none
  | m :: rest => if (alookup st.motors m).isSome then firstUnknown st rest else some m

/-- `_delist(units)`: convert / validate the selector to a list of unit ids.
On an iterable containing an unknown name it first stops every known motor,
then raises ValueError. -/
def delist (sel : Selector) (st : MSState) : MSState × MResult (List ℕ) :=
  match sel with
  | Selector.all => (st, MResult.ok (st.motors.map Prod.snd))
  | Selector.one n =>
    match alookup st.motors n with
    | some uid => (st, MResult.ok [uid])
    | none => (st, MResult.error (PyError.valueError (n ++ " is not a known motor name")))
  | Selector.many l =>
    match firstUnknown st l with
    | some bad =>
      (stopAllMotors st, MResult.error (PyError.valueError (bad ++ " is not a known motor name")))
    | none => (st, MResult.ok (l.filterMap (alookup st.motors)))

/-- `stopMotor(mlist)`: stop the units selected by `_delist`; returns None on
success, propagates the validation error otherwise. -/
def stopMotor (sel : Selector) (st : MSState) : MSState × MResult Unit :=
  match delist sel st with
  | (st', MResult.error e) => (st', MResult.error e)
  | (st', MResult.ok ids) =>
    (ids.foldl (fun s uid => (applyMethod unitStopM uid s).1) st', MResult.ok ())

/-- `close()`: close every unit, then discard the motor mapping.  The broker
and `quadmon` fields are not touched (the quadmon branch is `pass`). -/
def msClose (st : MSState) : MSState :=
  let st' := (st.motors.map Prod.snd).foldl (fun s uid => (applyMethod unitCloseM uid s).1) st
  {st' with motors := []}

/-- `ticker()`: run each unit's feedback step in mapping order.  The control
law is a property of the feedback-controller collaborator, so the per-unit
step is a parameter. -/
def msTicker (step : Method) (st : MSState) : MSState :=
  (runAll step st.motors st []).1

/-- `needservice(sname, className, **servargs)`: return the cached service
for the key, constructing and caching it from the supplied arguments only
when the key is absent. -/
def needservice (st : MSState) (sname : String) (className : String)
    (servargs : List (String × ℚ)) : MSState × ServiceInst :=
  match alookup st.sharedServices sname with
  | some serv => (st, serv)
  | none =>
    let serv : ServiceInst := ⟨st.nextId, className, servargs⟩
    ({st with nextId := st.nextId + 1
              sharedServices := st.sharedServices ++ [(sname, serv)]}, serv)

/-- Modelled from the spec: constructing a motor unit from its spec
(`logger.makeClassInstance(parent=self, **mdef)`; the motor class is not part
of src).  A freshly built unit is Ready with zero commanded output (§4.6). -/
def makeMotor (mdef : MotorDef) : MotorUnit :=
  { name := mdef.name, mdrive := mdef.mdrive, dutyCycle := 0, freq := 0,
    inverted := false, targetSpeed := none, fbParam := 0, lastRPMv := 0,
    lastPositionv := 0, speedLims := (0, 0), phase := Phase.ready }

/-- Does a motor spec carry a rotation-sense configuration with exactly two
pins (`'rotationsense' in mdef and 'pins' in ... and len(...) == 2`)? -/
def qualifiesQuad (mdef : MotorDef) : Bool :=
  match mdef.rotationsense with
  | none => false
  | some rs =>
    match rs.pins with
    | none => false
    | some ps => ps.length = 2

/-- Collect the `{motor name → pin pair}` dict `qd` over the motor specs. -/
def collectQd : List MotorDef → List (String × List ℕ) → List (String × List ℕ)
  | [], acc => acc
  | mdef :: rest, acc =>
    match mdef.rotationsense with
    | some rs =>
      match rs.pins with
      | some ps =>
        if ps.length = 2 then collectQd rest (dictInsert acc mdef.name ps)
        else collectQd rest acc
      | none => collectQd rest acc
    | none => collectQd rest acc

/-- The motor-registration loop of `__init__`: allocate each unit on the heap
and bind it in the ordered mapping, in spec order. -/
def registerMotors : List MotorDef → MSState → MSState
  | [], st => st
  | mdef :: rest, st =>
    registerMotors rest
      {st with nextId := st.nextId + 1
               units := st.units ++ [(st.nextId, makeMotor mdef)]
               motors := dictInsert st.motors mdef.name st.nextId}

/-- `motorset.__init__(motordefs, quadmonitor)`: empty broker and mapping,
quadmonitor handling (build the shared monitor only when some spec carries a
two-pin quad pair), then register every motor in input order. -/
def motorsetInit (motordefs : List MotorDef) (quadmonitor : Option QuadSpec) : MSState :=
  let qmon : Option QuadMon :=
    match quadmonitor with
    | none => none
    | some qs =>
      let qd := collectQd motordefs []
      if qd = [] then none else some ⟨qd, qs⟩
  registerMotors motordefs
    { nextId := 0, units := [], motors := [], sharedServices := [], quadmon := qmon }

/-- `lastMotorPosition(mlist)`. -/
def lastMotorPosition (sel : Selector) (st : MSState) : MSState × MResult CallResult :=
  listcall sel unitLastPosition st

/-- `lastMotorRPM(mlist)`. -/
def lastMotorRPM (sel : Selector) (st : MSState) : MSState × MResult CallResult :=
  listcall sel unitLastRPM st

/-- `motorInvert(inv, mlist)`. -/
def motorInvert (inv : Bool) (sel : Selector) (st : MSState) : MSState × MResult CallResult :=
  listcall sel (unitInvert inv) st

/-- `motorFrequency(f, mlist)`. -/
def motorFrequency (f : Option ℚ) (sel : Selector) (st : MSState) : MSState × MResult CallResult :=
  listcall sel (unitFrequency f) st

/-- `motorDC(dutycycle, mlist)`. -/
def motorDC (d : ℚ) (sel : Selector) (st : MSState) : MSState × MResult CallResult :=
  listcall sel (unitDC d) st

/-- `motorSpeedLimits(mlist)`. -/
def motorSpeedLimits (sel : Selector) (st : MSState) : MSState × MResult CallResult :=
  listcall sel unitSpeedLimits st

/-- `motorSpeed(speed, mlist)`. -/
def motorSpeed (s : Option ℚ) (sel : Selector) (st : MSState) : MSState × MResult CallResult :=
  listcall sel (unitSpeed s) st

/-- `motorFeedbackParam(paramdetails, mlist)`. -/
def motorFeedbackParam (p : Option ℚ) (sel : Selector) (st : MSState) : MSState × MResult CallResult :=
  listcall sel (unitFeedbackParam p) st

/-- `motorTargetSpeed(tspeed, mlist)`. -/
def motorTargetSpeed (t : Option ℚ) (sel : Selector) (st : MSState) : MSState × MResult CallResult :=
  listcall sel (unitTargetSpeed t) st

/-- State components the dispatch layer never changes: the motor mapping, the
set of heap ids, the broker mapping and the quad monitor. -/
def FrameEq (st st' : MSState) : Prop :=
  st'.motors = st.motors ∧ st'.units.map Prod.fst = st.units.map Prod.fst ∧
    st'.sharedServices = st.sharedServices ∧ st'.quadmon = st.quadmon

/-- Effect on the state of dispatching a method to one named motor: the
per-name step of the iterable branch of `_listcall`. -/
def applyNamed (f : Method) (st : MSState) (m : String) : MSState :=
  match alookup st.motors m with
  | none => st
  | some uid => (applyMethod f uid st).1

/-- The `'left'` motor spec of `config_adafruit_dc_sm_hat.py`. -/
def leftDef : MotorDef :=
  { name := "left", className := "dcmotorbasic.motor",
    mdrive := "dc_adafruit_dchat.dc_m_hat#4", rotationsense := none }

/-- The `'right'` motor spec of `config_adafruit_dc_sm_hat.py`. -/
def rightDef : MotorDef :=
  { name := "right", className := "dcmotorbasic.motor",
    mdrive := "dc_adafruit_dchat.dc_m_hat#3", rotationsense := none }

/-- The two-motor set of the configuration file: motors `left` and `right`. -/
def st2 : MSState := motorsetInit [leftDef, rightDef] none

/-- A second spec reusing the name `left` but a different drive channel. -/
def leftDefB : MotorDef := {leftDef with mdrive := "dc_adafruit_dchat.dc_m_hat#9"}

/-- The `left` spec extended with a two-pin quadrature rotation-sense block. -/
def quadLeftDef : MotorDef :=
  {leftDef with rotationsense := some ⟨"quadencoder.quadsense", some [17, 18]⟩}

/-- A shared-monitor configuration. -/
def qmonSpec : QuadSpec := ⟨"quadmonitor.qmon"⟩

/-- A two-motor state holding one broker entry, obtained by acquiring a
shared service on the two-motor set. -/
def st2svc : MSState := (needservice st2 "qsvc" "quadmonitor.qmon" []).1

/-- The unit at this heap id is de-energized: zero duty cycle, Idle phase. -/
def StoppedAt (st : MSState) (uid : ℕ) : Prop :=
  ∃ u, alookup st.units uid = some u ∧ u.dutyCycle = 0 ∧ u.phase = Phase.idle

/-! Association-list lemmas. -/

theorem alookup_aupdate_of_ne {κ α : Type} [DecidableEq κ] (l : List (κ × α)) (k q : κ)
    (v : α) (h : q ≠ k) : alookup (aupdate l k v) q = alookup l q := by
  induction l with
  | nil => rfl
  | cons p rest ih =>
    obtain ⟨k', v'⟩ := p
    by_cases hk : k' = k
    · subst hk
      have hq : ¬ k' = q := fun hq => h (hq ▸ rfl)
      simp [aupdate, alookup, hq]
    · simp only [aupdate, if_neg hk, alookup]
      by_cases hq : k' = q
      · simp [hq]
      · simp [hq, ih]

theorem alookup_aupdate_self {κ α : Type} [DecidableEq κ] (l : List (κ × α)) (k : κ)
    (v : α) : alookup (aupdate l k v) k = (alookup l k).map (fun _ => v) := by
  induction l with
  | nil => rfl
  | cons p rest ih =>
    obtain ⟨k', v'⟩ := p
    by_cases hk : k' = k
    · subst hk; simp [aupdate, alookup]
    · simp [aupdate, alookup, hk, ih]

theorem aupdate_map_fst {κ α : Type} [DecidableEq κ] (l : List (κ × α)) (k : κ) (v : α) :
    (aupdate l k v).map Prod.fst = l.map Prod.fst := by
  induction l with
  | nil => rfl
  | cons p rest ih =>
    obtain ⟨k', v'⟩ := p
    by_cases hk : k' = k
    · simp [aupdate, hk]
    · simp [aupdate, hk, ih]

theorem alookup_append_of_none {κ α : Type} [DecidableEq κ] (l1 l2 : List (κ × α)) (q : κ)
    (h : alookup l1 q = none) : alookup (l1 ++ l2) q = alookup l2 q := by
  induction l1 with
  | nil => rfl
  | cons p rest ih =>
    obtain ⟨k', v'⟩ := p
    by_cases hq : k' = q
    · simp [alookup, hq] at h
    · simp only [alookup, if_neg hq] at h
      simp [alookup, hq, ih h]

theorem alookup_append_of_some {κ α : Type} [DecidableEq κ] (l1 l2 : List (κ × α)) (q : κ)
    (v : α) (h : alookup l1 q = some v) : alookup (l1 ++ l2) q = some v := by
  induction l1 with
  | nil => simp [alookup] at h
  | cons p rest ih =>
    obtain ⟨k', v'⟩ := p
    by_cases hq : k' = q
    · simp only [alookup, if_pos hq] at h
      simp [alookup, hq, h]
    · simp only [alookup, if_neg hq] at h
      simp [alookup, hq, ih h]

theorem dictInsert_of_none {κ α : Type} [DecidableEq κ] (l : List (κ × α)) (k : κ) (v : α)
    (h : alookup l k = none) : dictInsert l k v = l ++ [(k, v)] := by
  simp [dictInsert, h]

theorem dictInsert_ne_nil {κ α : Type} [DecidableEq κ] (l : List (κ × α)) (k : κ) (v : α) :
    dictInsert l k v ≠ [] := by
  unfold dictInsert
  by_cases h : (alookup l k).isSome
  · cases l with
    | nil => simp [alookup] at h
    | cons p rest =>
      obtain ⟨k', v'⟩ := p
      simp only [if_pos h, aupdate]
      by_cases hk : k' = k <;> simp [hk]
  · simp [h]

/-! Frame lemmas: the dispatch layer never changes the motor mapping, the heap
ids, the broker or the quad monitor. -/

theorem frameEq_refl (st : MSState) : FrameEq st st := ⟨rfl, rfl, rfl, rfl⟩

theorem frameEq_trans {a b c : MSState} (h1 : FrameEq a b) (h2 : FrameEq b c) :
    FrameEq a c :=
  ⟨h2.1.trans h1.1, h2.2.1.trans h1.2.1, h2.2.2.1.trans h1.2.2.1, h2.2.2.2.trans h1.2.2.2⟩

theorem applyMethod_frame (f : Method) (uid : ℕ) (st : MSState) :
    FrameEq st (applyMethod f uid st).1 := by
  unfold applyMethod
  cases h : alookup st.units uid with
  | none => exact frameEq_refl st
  | some u => exact ⟨rfl, aupdate_map_fst _ _ _, rfl, rfl⟩

theorem runAll_frame (f : Method) : ∀ (ms : List (String × ℕ)) (st : MSState)
    (acc : List (String × Value)), FrameEq st (runAll f ms st acc).1 := by
  intro ms
  induction ms with
  | nil => intro st acc; exact frameEq_refl st
  | cons p rest ih =>
    intro st acc
    obtain ⟨n, uid⟩ := p
    simp only [runAll]
    cases h : alookup st.units uid with
    | none => simp only [h]; exact ih st acc
    | some u =>
      simp only [h]
      exact frameEq_trans (b := {st with units := aupdate st.units uid (f u).1})
        ⟨rfl, aupdate_map_fst _ _ _, rfl, rfl⟩ (ih _ _)

theorem runMany_frame (f : Method) : ∀ (l : List String) (st : MSState)
    (acc : List (String × Value)), FrameEq st (runMany f l st acc).1 := by
  intro l
  induction l with
  | nil => intro st acc; exact frameEq_refl st
  | cons m rest ih =>
    intro st acc
    unfold runMany
    cases h : alookup st.motors m with
    | none => exact frameEq_refl st
    | some uid => exact frameEq_trans (applyMethod_frame f uid st) (ih _ _)

theorem foldApply_frame (f : Method) : ∀ (ids : List ℕ) (st : MSState),
    FrameEq st (ids.foldl (fun s uid => (applyMethod f uid s).1) st) := by
  intro ids
  induction ids with
  | nil => intro st; exact frameEq_refl st
  | cons uid rest ih =>
    intro st
    rw [List.foldl_cons]
    exact frameEq_trans (applyMethod_frame f uid st) (ih _)

theorem listcall_frame (f : Method) (sel : Selector) (st : MSState) :
    FrameEq st (listcall sel f st).1 := by
  cases sel with
  | all =>
    simp only [listcall]
    cases h : runAll f st.motors st [] with
    | mk st' entries =>
      have hr := runAll_frame f st.motors st []
      rw [h] at hr
      simp only [h]
      exact hr
  | one n =>
    simp only [listcall]
    cases h : alookup st.motors n with
    | none => simp only [h]; exact frameEq_refl st
    | some uid =>
      simp only [h]
      cases ha : applyMethod f uid st with
      | mk st' v =>
        have hr := applyMethod_frame f uid st
        rw [ha] at hr
        simp only [ha]
        exact hr
  | many l =>
    simp only [listcall]
    cases h : runMany f l st [] with
    | mk st' res =>
      have hr := runMany_frame f l st []
      rw [h] at hr
      cases res with
      | ok entries => exact hr
      | error e => exact hr

theorem stopAllMotors_frame (st : MSState) : FrameEq st (stopAllMotors st) :=
  runAll_frame unitStopM st.motors st []

theorem delist_frame (sel : Selector) (st : MSState) : FrameEq st (delist sel st).1 := by
  cases sel with
  | all => exact frameEq_refl st
  | one n =>
    simp only [delist]
    cases h : alookup st.motors n with
    | none => simp only [h]; exact frameEq_refl st
    | some uid => simp only [h]; exact frameEq_refl st
  | many l =>
    simp only [delist]
    cases h : firstUnknown st l with
    | none => simp only [h]; exact frameEq_refl st
    | some bad => simp only [h]; exact stopAllMotors_frame st

theorem stopMotor_frame (sel : Selector) (st : MSState) :
    FrameEq st (stopMotor sel st).1 := by
  unfold stopMotor
  cases h : delist sel st with
  | mk st' res =>
    have hd := delist_frame sel st
    rw [h] at hd
    cases res with
    | ok ids => exact frameEq_trans hd (foldApply_frame unitStopM ids st')
    | error e => exact hd

theorem msTicker_frame (step : Method) (st : MSState) : FrameEq st (msTicker step st) :=
  runAll_frame step st.motors st []

/-- C10: every dispatch operation with any selector — `_listcall` dispatch,
`stopMotor`, and `ticker()` — leaves the motor mapping itself unchanged: the
name-to-unit binding (names, order, and bound unit references) and the set of
heap ids are identical before and after the call. -/
theorem dispatch_preserves_motor_mapping (f step : Method) (sel : Selector) (st : MSState) :
    (listcall sel f st).1.motors = st.motors ∧
      (listcall sel f st).1.units.map Prod.fst = st.units.map Prod.fst ∧
      (stopMotor sel st).1.motors = st.motors ∧
      (stopMotor sel st).1.units.map Prod.fst = st.units.map Prod.fst ∧
      (msTicker step st).motors = st.motors ∧
      (msTicker step st).units.map Prod.fst = st.units.map Prod.fst :=
  ⟨(listcall_frame f sel st).1, (listcall_frame f sel st).2.1,
    (stopMotor_frame sel st).1, (stopMotor_frame sel st).2.1,
    (msTicker_frame step st).1, (msTicker_frame step st).2.1⟩

/-- C5 counterexample: on the two-motor set holding one acquired broker entry,
`close()` leaves the broker entry in place — the broker is not emptied when
the motor mapping is discarded, contrary to the claim that broker entries are
released at the same point. -/
theorem close_broker_counterexample :
    (msClose st2svc).sharedServices ≠ [] ∧
      (msClose st2svc).sharedServices = st2svc.sharedServices ∧
      (msClose st2svc).motors = [] := by
  refine ⟨?_, rfl, rfl⟩
  have h : (msClose st2svc).sharedServices =
      [("qsvc", ⟨2, "quadmonitor.qmon", []⟩)] := rfl
  rw [h]
  exact List.cons_ne_nil _ _

/-- C5 amended: `close()` discards the motor mapping but does not release the
broker's entries: the sharedServices mapping (and the quad monitor handle) is
exactly what it was before the call, so broker entries survive `close()`. -/
theorem close_keeps_broker_entries (st : MSState) :
    (msClose st).sharedServices = st.sharedServices ∧
      (msClose st).quadmon = st.quadmon ∧ (msClose st).motors = [] := by
  have h := foldApply_frame unitCloseM (st.motors.map Prod.snd) st
  exact ⟨h.2.2.1, h.2.2.2, rfl⟩

/-- C8: after `close()` the motor mapping is empty, so an all-selector query
returns an empty dict and changes nothing, a single-name selector raises
KeyError in `_listcall`, a list selector containing any name raises KeyError
at its first name, and `stopMotor` with a name raises ValueError: no
operation on a closed Motor Set succeeds against a motor. -/
theorem closed_set_operations (st : MSState) (f : Method) (n m : String) (l : List String) :
    listcall Selector.all f (msClose st) = (msClose st, MResult.ok (CallResult.dict [])) ∧
      (listcall (Selector.one n) f (msClose st)).2 = MResult.error (PyError.keyError n) ∧
      (listcall (Selector.many (m :: l)) f (msClose st)).2 =
        MResult.error (PyError.keyError m) ∧
      (stopMotor (Selector.one n) (msClose st)).2 =
        MResult.error (PyError.valueError (n ++ " is not a known motor name")) :=
  ⟨rfl, rfl, rfl, rfl⟩

/-- C4: `needservice` is idempotent in its key: with the key initially absent,
the first call constructs the service from the supplied class name and
arguments and caches it, and a second call with the same key and any other
specification returns the identical cached instance with the whole state
(broker mapping included) unchanged. -/
theorem needservice_first_writer_wins (st : MSState) (k cn1 cn2 : String)
    (a1 a2 : List (String × ℚ)) (h : alookup st.sharedServices k = none) :
    (needservice st k cn1 a1).2.className = cn1 ∧
      (needservice st k cn1 a1).2.servargs = a1 ∧
      needservice (needservice st k cn1 a1).1 k cn2 a2 =
        ((needservice st k cn1 a1).1, (needservice st k cn1 a1).2) := by
  have hfirst : needservice st k cn1 a1 =
      ({st with nextId := st.nextId + 1
                sharedServices := st.sharedServices ++ [(k, ⟨st.nextId, cn1, a1⟩)]},
        (⟨st.nextId, cn1, a1⟩ : ServiceInst)) := by
    simp only [needservice, h]
  have h2 : alookup (st.sharedServices ++ [(k, (⟨st.nextId, cn1, a1⟩ : ServiceInst))]) k =
      some ⟨st.nextId, cn1, a1⟩ := by
    rw [alookup_append_of_none _ _ _ h]
    simp [alookup]
  rw [hfirst]
  refine ⟨rfl, rfl, ?_⟩
  simp only [needservice, h2]

/-- C4 witness: on the two-motor set, acquiring key `qsvc` twice with
different specifications returns the instance built from the first
specification both times and leaves the broker unchanged. -/
theorem needservice_first_writer_wins_witness :
    (needservice st2 "qsvc" "quadmonitor.qmon" []).2.className = "quadmonitor.qmon" ∧
      needservice st2svc "qsvc" "other.cls" [("x", 1)] =
        (st2svc, (needservice st2 "qsvc" "quadmonitor.qmon" []).2) := by
  have h := needservice_first_writer_wins st2 "qsvc" "quadmonitor.qmon" "other.cls"
    [] [("x", 1)] rfl
  exact ⟨h.1, h.2.2⟩

/-! The iterable branch of `_listcall` validates nothing: it mutates the named
motors one by one and raises KeyError only when it reaches an unknown name. -/

theorem runMany_prefix (f : Method) : ∀ (pre : List String) (bad : String)
    (rest : List String) (st : MSState) (acc : List (String × Value)),
    (∀ m ∈ pre, (alookup st.motors m).isSome) → alookup st.motors bad = none →
    runMany f (pre ++ bad :: rest) st acc =
      (pre.foldl (applyNamed f) st, MResult.error (PyError.keyError bad)) := by
  intro pre
  induction pre with
  | nil =>
    intro bad rest st acc hpre hbad
    simp only [List.nil_append, runMany, hbad]
    rfl
  | cons m pre' ih =>
    intro bad rest st acc hpre hbad
    have hm : (alookup st.motors m).isSome := hpre m (List.mem_cons_self m pre')
    obtain ⟨uid, huid⟩ := Option.isSome_iff_exists.mp hm
    simp only [List.cons_append, List.append_eq, runMany, huid]
    have hmot : (applyMethod f uid st).1.motors = st.motors := (applyMethod_frame f uid st).1
    have hpre' : ∀ x ∈ pre', (alookup (applyMethod f uid st).1.motors x).isSome := by
      intro x hx
      rw [hmot]
      exact hpre x (List.mem_cons_of_mem _ hx)
    have hbad' : alookup (applyMethod f uid st).1.motors bad = none := by
      rw [hmot]
      exact hbad
    have hstep : applyNamed f st m = (applyMethod f uid st).1 := by
      simp [applyNamed, huid]
    rw [ih bad rest (applyMethod f uid st).1 _ hpre' hbad', List.foldl_cons, hstep]

/-- C1 counterexample: on the two-motor set, `motorDC(0.5, ["left","bogus"])`
raises KeyError for the unknown name but has already set left's duty cycle to
1/2 (it was 0 before the call): the batch is not atomic and a known motor in
the batch IS mutated by the failing dispatch. -/
theorem batch_atomicity_counterexample :
    (motorDC (1/2) (Selector.many ["left", "bogus"]) st2).2 =
        MResult.error (PyError.keyError "bogus") ∧
      (getMotorUnit st2 "left").map MotorUnit.dutyCycle = some 0 ∧
      (getMotorUnit (motorDC (1/2) (Selector.many ["left", "bogus"]) st2).1 "left").map
        MotorUnit.dutyCycle = some (1/2) ∧
      (1 : ℚ)/2 ≠ 0 :=
  ⟨rfl, rfl, rfl, by norm_num⟩

/-- C1 amended: for a `_listcall` operation with an explicit list selector in
which some name is unknown, the dispatch fails as a whole with a KeyError
naming the first unknown name, but the motors listed before that name have
already been mutated by the operation (the final state is the input state
with the method applied, in order, to every motor named before the first
unknown name); motors from the first unknown name onward are untouched. -/
theorem listcall_unknown_in_list (f : Method) (st : MSState) (pre : List String)
    (bad : String) (rest : List String)
    (hpre : ∀ m ∈ pre, (alookup st.motors m).isSome)
    (hbad : alookup st.motors bad = none) :
    listcall (Selector.many (pre ++ bad :: rest)) f st =
      (pre.foldl (applyNamed f) st, MResult.error (PyError.keyError bad)) := by
  have h := runMany_prefix f pre bad rest st [] hpre hbad
  simp only [listcall, h]

/-- C1 witness: `motorDC(1/2, ["left","bogus"])` on the two-motor set ends in
the state where only `left` was driven, with a KeyError for `bogus`. -/
theorem listcall_unknown_in_list_witness :
    listcall (Selector.many (["left"] ++ "bogus" :: [])) (unitDC (1/2)) st2 =
      (["left"].foldl (applyNamed (unitDC (1/2))) st2,
        MResult.error (PyError.keyError "bogus")) :=
  listcall_unknown_in_list (unitDC (1/2)) st2 ["left"] "bogus" [] (by decide) (by decide)

/-- C2 counterexample: constructing a motor set from two specs that both name
`left` does not fail: it yields a working motor set with exactly one mapping
entry, and the motor reachable under `left` is the one built from the LAST
spec — a motor is reachable, contradicting the claimed construction error. -/
theorem duplicate_name_counterexample :
    (motorsetInit [leftDef, leftDefB] none).motors.map Prod.fst = ["left"] ∧
      getMotorUnit (motorsetInit [leftDef, leftDefB] none) "left" =
        some (makeMotor leftDefB) :=
  ⟨rfl, rfl⟩

/-- C2 amended: constructing with two specs sharing one name is not an error:
the later spec's unit silently overwrites the earlier one at the same mapping
position (`self.motors[name] = ...` replaces the binding), so exactly one
motor, built from the last spec, is reachable under the duplicated name. -/
theorem duplicate_name_overwrites (d1 d2 : MotorDef) (h : d2.name = d1.name) :
    (motorsetInit [d1, d2] none).motors = [(d1.name, 1)] ∧
      getMotorUnit (motorsetInit [d1, d2] none) d1.name = some (makeMotor d2) := by
  constructor
  · simp [motorsetInit, registerMotors, dictInsert, alookup, aupdate, h]
  · simp [motorsetInit, registerMotors, dictInsert, alookup, aupdate, getMotorUnit, h]

/-- C2 amended witness: the two `left` specs produce one motor bound to the
second spec's drive. -/
theorem duplicate_name_overwrites_witness :
    (motorsetInit [leftDef, leftDefB] none).motors = [("left", 1)] ∧
      getMotorUnit (motorsetInit [leftDef, leftDefB] none) "left" =
        some (makeMotor leftDefB) :=
  duplicate_name_overwrites leftDef leftDefB rfl

/-! Construction with unique names registers every spec in input order. -/

theorem registerMotors_motors : ∀ (defs : List MotorDef) (st : MSState),
    (∀ d ∈ defs, alookup st.motors d.name = none) →
    (defs.map MotorDef.name).Nodup →
    (registerMotors defs st).motors.map Prod.fst =
      st.motors.map Prod.fst ++ defs.map MotorDef.name := by
  intro defs
  induction defs with
  | nil =>
    intro st h1 h2
    simp [registerMotors]
  | cons d rest ih =>
    intro st h1 h2
    have habs : alookup st.motors d.name = none := h1 d (List.mem_cons_self d rest)
    have hnotin : d.name ∉ rest.map MotorDef.name := by
      simp only [List.map_cons, List.nodup_cons] at h2
      exact h2.1
    have h1' : ∀ d' ∈ rest, alookup (st.motors ++ [(d.name, st.nextId)]) d'.name = none := by
      intro d' hd'
      have hne : d.name ≠ d'.name := by
        intro he
        exact hnotin (he ▸ List.mem_map_of_mem MotorDef.name hd')
      rw [alookup_append_of_none _ _ _ (h1 d' (List.mem_cons_of_mem _ hd'))]
      simp [alookup, hne]
    have h2' : (rest.map MotorDef.name).Nodup := by
      simp only [List.map_cons, List.nodup_cons] at h2
      exact h2.2
    simp only [registerMotors, dictInsert_of_none _ _ _ habs]
    rw [ih _ h1' h2']
    simp

/-- C7: for every motor-spec list with pairwise distinct names, construction
yields a motor mapping whose keys, in iteration order, are exactly the spec
names in input order, and whose size equals the number of specs. -/
theorem init_preserves_spec_order (defs : List MotorDef) (qm : Option QuadSpec)
    (h : (defs.map MotorDef.name).Nodup) :
    (motorsetInit defs qm).motors.map Prod.fst = defs.map MotorDef.name ∧
      (motorsetInit defs qm).motors.length = defs.length := by
  have key : ∀ (st0 : MSState), st0.motors = [] →
      (registerMotors defs st0).motors.map Prod.fst = defs.map MotorDef.name := by
    intro st0 h0
    have hr := registerMotors_motors defs st0 (fun d _ => by rw [h0]; rfl) h
    rw [h0] at hr
    simpa using hr
  have hfst : (motorsetInit defs qm).motors.map Prod.fst = defs.map MotorDef.name := by
    cases qm with
    | none => exact key _ rfl
    | some qs => exact key _ rfl
  refine ⟨hfst, ?_⟩
  have := congrArg List.length hfst
  simpa using this

/-- C7 witness: the configuration file's two specs build the mapping
`left`, `right` in that order. -/
theorem init_preserves_spec_order_witness :
    st2.motors.map Prod.fst = ["left", "right"] ∧ st2.motors.length = 2 :=
  init_preserves_spec_order [leftDef, rightDef] none (by decide)

/-! The stop operation's validation failure path stops every known motor. -/

theorem firstUnknown_isSome (st : MSState) : ∀ (l : List String),
    (∃ m ∈ l, alookup st.motors m = none) → ∃ bad, firstUnknown st l = some bad := by
  intro l
  induction l with
  | nil =>
    rintro ⟨m, hm, _⟩
    exact absurd hm (List.not_mem_nil m)
  | cons x rest ih =>
    rintro ⟨m, hm, hnone⟩
    by_cases hx : (alookup st.motors x).isSome
    · have hfu : firstUnknown st (x :: rest) = firstUnknown st rest := by
        simp [firstUnknown, hx]
      rw [hfu]
      apply ih
      rcases List.mem_cons.mp hm with h | h
      · rw [h] at hnone
        rw [hnone] at hx
        simp at hx
      · exact ⟨m, h, hnone⟩
    · exact ⟨x, by simp [firstUnknown, hx]⟩

theorem runAll_stop_preserves : ∀ (ms : List (String × ℕ)) (st : MSState)
    (acc : List (String × Value)) (uid : ℕ),
    StoppedAt st uid → StoppedAt (runAll unitStopM ms st acc).1 uid := by
  intro ms
  induction ms with
  | nil => intro st acc uid h; exact h
  | cons p rest ih =>
    intro st acc uid h
    obtain ⟨n, uid'⟩ := p
    simp only [runAll]
    cases hu : alookup st.units uid' with
    | none => exact ih st acc uid h
    | some u =>
      apply ih
      obtain ⟨w, hw, hdc, hph⟩ := h
      by_cases he : uid = uid'
      · refine ⟨unitStop u, ?_, rfl, rfl⟩
        show alookup (aupdate st.units uid' (unitStopM u).1) uid = some (unitStop u)
        rw [he, alookup_aupdate_self, hu]
        rfl
      · refine ⟨w, ?_, hdc, hph⟩
        show alookup (aupdate st.units uid' (unitStopM u).1) uid = some w
        rw [alookup_aupdate_of_ne _ _ _ _ he]
        exact hw

theorem runAll_stop_stops : ∀ (ms : List (String × ℕ)) (st : MSState)
    (acc : List (String × Value)),
    (∀ p ∈ ms, (alookup st.units p.2).isSome) →
    ∀ p ∈ ms, StoppedAt (runAll unitStopM ms st acc).1 p.2 := by
  intro ms
  induction ms with
  | nil =>
    intro st acc h p hp
    exact absurd hp (List.not_mem_nil p)
  | cons q rest ih =>
    intro st acc h p hp
    obtain ⟨n, uid'⟩ := q
    have hq : (alookup st.units uid').isSome := h (n, uid') (List.mem_cons_self _ _)
    obtain ⟨u, hu⟩ := Option.isSome_iff_exists.mp hq
    simp only [runAll, hu]
    have hstopped : StoppedAt {st with units := aupdate st.units uid' (unitStopM u).1} uid' := by
      refine ⟨unitStop u, ?_, rfl, rfl⟩
      show alookup (aupdate st.units uid' (unitStopM u).1) uid' = some (unitStop u)
      rw [alookup_aupdate_self, hu]
      rfl
    rcases List.mem_cons.mp hp with h1 | h1
    · rw [h1]
      exact runAll_stop_preserves rest _ _ uid' hstopped
    · apply ih _ _ ?_ p h1
      intro r hr
      have hr0 := h r (List.mem_cons_of_mem _ hr)
      by_cases he : r.2 = uid'
      · show (alookup (aupdate st.units uid' (unitStopM u).1) r.2).isSome
        rw [he, alookup_aupdate_self, hu]
        rfl
      · show (alookup (aupdate st.units uid' (unitStopM u).1) r.2).isSome
        rw [alookup_aupdate_of_ne _ _ _ _ he]
        exact hr0

/-- C3: `stopMotor` with an explicit list selector containing an unknown name
takes `_delist`'s validation-failure path: it stops every currently known
motor (the final state is exactly the stop-all state) and then reports the
ValueError, so every previously known motor ends de-energized and Idle
despite the error. -/
theorem stop_validation_failure_stops_all (st : MSState) (l : List String)
    (hwf : ∀ p ∈ st.motors, (alookup st.units p.2).isSome)
    (hbad : ∃ m ∈ l, alookup st.motors m = none) :
    (∃ e, (stopMotor (Selector.many l) st).2 = MResult.error e) ∧
      (stopMotor (Selector.many l) st).1 = stopAllMotors st ∧
      ∀ p ∈ st.motors, StoppedAt (stopMotor (Selector.many l) st).1 p.2 := by
  obtain ⟨bad, hfu⟩ := firstUnknown_isSome st l hbad
  have hDelist : delist (Selector.many l) st =
      (stopAllMotors st,
        MResult.error (PyError.valueError (bad ++ " is not a known motor name"))) := by
    simp only [delist, hfu]
  have hSM : stopMotor (Selector.many l) st =
      (stopAllMotors st,
        MResult.error (PyError.valueError (bad ++ " is not a known motor name"))) := by
    simp only [stopMotor, hDelist]
  rw [hSM]
  refine ⟨⟨_, rfl⟩, rfl, ?_⟩
  intro p hp
  exact runAll_stop_stops st.motors st [] hwf p hp

/-- C3 witness: `stopMotor(["left","bogus"])` on the two-motor set errors,
yet both `left` and `right` end stopped and Idle. -/
theorem stop_validation_failure_stops_all_witness :
    (∃ e, (stopMotor (Selector.many ["left", "bogus"]) st2).2 = MResult.error e) ∧
      ∀ p ∈ st2.motors, StoppedAt (stopMotor (Selector.many ["left", "bogus"]) st2).1 p.2 := by
  have h := stop_validation_failure_stops_all st2 ["left", "bogus"] (by decide)
    ⟨"bogus", by decide, by decide⟩
  exact ⟨h.1, h.2.2⟩

/-! Shared-monitor construction. -/

theorem registerMotors_quadmon : ∀ (defs : List MotorDef) (st : MSState),
    (registerMotors defs st).quadmon = st.quadmon := by
  intro defs
  induction defs with
  | nil => intro st; rfl
  | cons d rest ih =>
    intro st
    simp only [registerMotors]
    rw [ih]

theorem collectQd_eq_nil : ∀ (defs : List MotorDef) (acc : List (String × List ℕ)),
    collectQd defs acc = [] ↔ acc = [] ∧ ∀ d ∈ defs, qualifiesQuad d = false := by
  intro defs
  induction defs with
  | nil =>
    intro acc
    simp [collectQd]
  | cons d rest ih =>
    intro acc
    cases hrs : d.rotationsense with
    | none =>
      have hq : qualifiesQuad d = false := by simp [qualifiesQuad, hrs]
      simp only [collectQd, hrs, ih]
      simp [hq]
    | some rs =>
      cases hps : rs.pins with
      | none =>
        have hq : qualifiesQuad d = false := by simp [qualifiesQuad, hrs, hps]
        simp only [collectQd, hrs, hps, ih]
        simp [hq]
      | some ps =>
        by_cases hlen : ps.length = 2
        · have hq : qualifiesQuad d = true := by simp [qualifiesQuad, hrs, hps, hlen]
          simp only [collectQd, hrs, hps, if_pos hlen, ih]
          constructor
          · rintro ⟨hd, -⟩
            exact absurd hd (dictInsert_ne_nil acc d.name ps)
          · rintro ⟨-, hall⟩
            have := hall d (List.mem_cons_self d rest)
            rw [hq] at this
            cases this
        · have hq : qualifiesQuad d = false := by simp [qualifiesQuad, hrs, hps, hlen]
          simp only [collectQd, hrs, hps, if_neg hlen, ih]
          simp [hq]

/-- C9: with a shared-monitor configuration supplied, construction builds the
single shared monitor exactly when some motor spec carries a rotation-sense
block with exactly two pins; when built, the monitor instance holds the full
collected name-to-pin-pair mapping and the supplied spec; with no qualifying
motor (or no monitor configuration at all) no monitor is constructed. -/
theorem shared_monitor_construction (defs : List MotorDef) (qs : QuadSpec) :
    ((motorsetInit defs (some qs)).quadmon.isSome ↔
        ∃ d ∈ defs, qualifiesQuad d = true) ∧
      (∀ qm, (motorsetInit defs (some qs)).quadmon = some qm →
        qm.motorquads = collectQd defs [] ∧ qm.spec = qs) ∧
      (motorsetInit defs none).quadmon = none := by
  have hq : (motorsetInit defs (some qs)).quadmon =
      (if collectQd defs [] = [] then none else some ⟨collectQd defs [], qs⟩) := by
    show (registerMotors defs _).quadmon = _
    rw [registerMotors_quadmon]
  refine ⟨?_, ?_, ?_⟩
  · rw [hq]
    by_cases hnil : collectQd defs [] = []
    · rw [if_pos hnil]
      constructor
      · intro hs
        simp at hs
      · rintro ⟨d, hd, hqd⟩
        have hfa := ((collectQd_eq_nil defs []).mp hnil).2 d hd
        rw [hqd] at hfa
        cases hfa
    · rw [if_neg hnil]
      constructor
      · intro hs
        by_contra hno
        apply hnil
        apply (collectQd_eq_nil defs []).mpr
        refine ⟨rfl, ?_⟩
        intro d hd
        cases hqd : qualifiesQuad d with
        | false => rfl
        | true => exact absurd ⟨d, hd, hqd⟩ hno
      · intro hex
        rfl
  · rw [hq]
    by_cases hnil : collectQd defs [] = []
    · rw [if_pos hnil]
      intro qm hqm
      cases hqm
    · rw [if_neg hnil]
      intro qm hqm
      cases hqm
      exact ⟨rfl, rfl⟩
  · show (registerMotors defs _).quadmon = none
    rw [registerMotors_quadmon]

/-- C9 witness: with the left spec carrying pin pair `[17, 18]`, construction
builds a monitor whose mapping is the collected dict. -/
theorem shared_monitor_construction_witness :
    (motorsetInit [quadLeftDef, rightDef] (some qmonSpec)).quadmon.isSome ∧
      ((⟨[("left", [17, 18])], qmonSpec⟩ : QuadMon).motorquads =
          collectQd [quadLeftDef, rightDef] [] ∧
        (⟨[("left", [17, 18])], qmonSpec⟩ : QuadMon).spec = qmonSpec) := by
  have h := shared_monitor_construction [quadLeftDef, rightDef] qmonSpec
  exact ⟨h.1.mpr ⟨quadLeftDef, by decide, by decide⟩, h.2.1 _ rfl⟩

/-! Result shapes of the three dispatch branches. -/

theorem applyMethod_untouched (f : Method) (uid' uid : ℕ) (st : MSState) (h : uid ≠ uid') :
    alookup (applyMethod f uid' st).1.units uid = alookup st.units uid := by
  unfold applyMethod
  cases hu : alookup st.units uid' with
  | none => rfl
  | some u => exact alookup_aupdate_of_ne _ _ _ _ h

theorem listcall_one (f : Method) (st : MSState) (n : String) (uid : ℕ)
    (h : alookup st.motors n = some uid) :
    listcall (Selector.one n) f st =
      ((applyMethod f uid st).1, MResult.ok (CallResult.single (applyMethod f uid st).2)) := by
  simp only [listcall, h]

theorem runAll_keys (f : Method) : ∀ (ms : List (String × ℕ)) (st : MSState)
    (acc : List (String × Value)),
    (∀ p ∈ ms, (alookup st.units p.2).map MotorUnit.name = some p.1) →
    (ms.map Prod.fst).Nodup → (ms.map Prod.snd).Nodup →
    (∀ k ∈ ms.map Prod.fst, alookup acc k = none) →
    (runAll f ms st acc).2.map Prod.fst = acc.map Prod.fst ++ ms.map Prod.fst := by
  intro ms
  induction ms with
  | nil =>
    intro st acc h1 h2 h3 h4
    simp [runAll]
  | cons p rest ih =>
    intro st acc h1 h2 h3 h4
    obtain ⟨n, uid⟩ := p
    have hu0 := h1 (n, uid) (List.mem_cons_self _ _)
    cases hu : alookup st.units uid with
    | none =>
      rw [hu] at hu0
      cases hu0
    | some u =>
      rw [hu] at hu0
      have hname : u.name = n := by simpa using hu0
      have hfst : n ∉ rest.map Prod.fst := by
        simp only [List.map_cons, List.nodup_cons] at h2
        exact h2.1
      have hsnd : uid ∉ rest.map Prod.snd := by
        simp only [List.map_cons, List.nodup_cons] at h3
        exact h3.1
      have haccn : alookup acc u.name = none := by
        rw [hname]
        exact h4 n (by simp)
      simp only [runAll, hu]
      rw [dictInsert_of_none _ _ _ haccn]
      have h1' : ∀ r ∈ rest,
          (alookup {st with units := aupdate st.units uid (f u).1}.units r.2).map
            MotorUnit.name = some r.1 := by
        intro r hr
        have hne : r.2 ≠ uid := fun he => hsnd (he ▸ List.mem_map_of_mem Prod.snd hr)
        show (alookup (aupdate st.units uid (f u).1) r.2).map MotorUnit.name = some r.1
        rw [alookup_aupdate_of_ne _ _ _ _ hne]
        exact h1 r (List.mem_cons_of_mem _ hr)
      have h2' : (rest.map Prod.fst).Nodup := by
        simp only [List.map_cons, List.nodup_cons] at h2
        exact h2.2
      have h3' : (rest.map Prod.snd).Nodup := by
        simp only [List.map_cons, List.nodup_cons] at h3
        exact h3.2
      have h4' : ∀ k ∈ rest.map Prod.fst,
          alookup (acc ++ [(u.name, (f u).2)]) k = none := by
        intro k hk
        have hkn : u.name ≠ k := by
          rw [hname]
          intro he
          exact hfst (he ▸ hk)
        rw [alookup_append_of_none _ _ _ (h4 k (by simp [hk]))]
        simp [alookup, hkn]
      rw [ih _ _ h1' h2' h3' h4']
      simp [hname]

theorem runMany_keys (f : Method) : ∀ (l : List String) (st : MSState)
    (acc : List (String × Value)),
    (∀ m ∈ l, (alookup st.motors m).isSome) → l.Nodup →
    (∀ k ∈ l, alookup acc k = none) →
    ∃ entries, (runMany f l st acc).2 = MResult.ok entries ∧
      entries.map Prod.fst = acc.map Prod.fst ++ l := by
  intro l
  induction l with
  | nil =>
    intro st acc h1 h2 h3
    exact ⟨acc, rfl, by simp⟩
  | cons m rest ih =>
    intro st acc h1 h2 h3
    obtain ⟨uid, huid⟩ := Option.isSome_iff_exists.mp (h1 m (List.mem_cons_self _ _))
    have haccm : alookup acc m = none := h3 m (List.mem_cons_self _ _)
    simp only [runMany, huid]
    rw [dictInsert_of_none _ _ _ haccm]
    have hmot : (applyMethod f uid st).1.motors = st.motors := (applyMethod_frame f uid st).1
    have h1' : ∀ x ∈ rest, (alookup (applyMethod f uid st).1.motors x).isSome := by
      intro x hx
      rw [hmot]
      exact h1 x (List.mem_cons_of_mem _ hx)
    have h2' : rest.Nodup := (List.nodup_cons.mp h2).2
    have hmnotin : m ∉ rest := (List.nodup_cons.mp h2).1
    have h3' : ∀ k ∈ rest, alookup (acc ++ [(m, (applyMethod f uid st).2)]) k = none := by
      intro k hk
      have hkm : m ≠ k := fun he => hmnotin (he ▸ hk)
      rw [alookup_append_of_none _ _ _ (h3 k (List.mem_cons_of_mem _ hk))]
      simp [alookup, hkm]
    obtain ⟨entries, he1, he2⟩ := ih _ _ h1' h2' h3'
    refine ⟨entries, he1, ?_⟩
    rw [he2]
    simp

theorem runMany_untouched (f : Method) : ∀ (l : List String) (st : MSState)
    (acc : List (String × Value)) (uid : ℕ),
    uid ∉ l.filterMap (alookup st.motors) →
    alookup (runMany f l st acc).1.units uid = alookup st.units uid := by
  intro l
  induction l with
  | nil =>
    intro st acc uid h
    rfl
  | cons m rest ih =>
    intro st acc uid h
    cases hm : alookup st.motors m with
    | none =>
      simp only [runMany, hm]
    | some uid' =>
      simp only [List.filterMap_cons, hm] at h
      have hne : uid ≠ uid' := fun he => h (he ▸ List.mem_cons_self _ _)
      have hrest : uid ∉ rest.filterMap (alookup st.motors) :=
        fun hh => h (List.mem_cons_of_mem _ hh)
      simp only [runMany, hm]
      have hmot : (applyMethod f uid' st).1.motors = st.motors :=
        (applyMethod_frame f uid' st).1
      rw [ih _ _ uid (by rw [hmot]; exact hrest)]
      exact applyMethod_untouched f uid' uid st hne

/-- C6: the selector determines the dispatch result shape: with no selector
the method runs on every motor in mapping order and the result is a dict
keyed by the motors' names in that order; with a single known name the result
is the single per-motor value, unwrapped; with an explicit list of known
names the result is a dict keyed by exactly those names in the given order,
and motors outside the list are untouched.  Concretely, on the two-motor set,
`motorDC(1/2, "left")` returns the bare value 1/2, drives only `left` and
leaves `right` at 0, while `motorDC(3/10)` drives both motors and returns the
dict assigning 3/10 to `left` and `right`. -/
theorem dispatch_result_shapes (f : Method) (st : MSState) (n : String) (l : List String) :
    ((∀ p ∈ st.motors, (alookup st.units p.2).map MotorUnit.name = some p.1) →
      (st.motors.map Prod.fst).Nodup → (st.motors.map Prod.snd).Nodup →
      ∃ entries, listcall Selector.all f st =
        ((runAll f st.motors st []).1, MResult.ok (CallResult.dict entries)) ∧
        entries.map Prod.fst = st.motors.map Prod.fst) ∧
      (∀ uid, alookup st.motors n = some uid →
        listcall (Selector.one n) f st =
          ((applyMethod f uid st).1,
            MResult.ok (CallResult.single (applyMethod f uid st).2))) ∧
      ((∀ m ∈ l, (alookup st.motors m).isSome) → l.Nodup →
        ∃ entries, (listcall (Selector.many l) f st).2 =
          MResult.ok (CallResult.dict entries) ∧ entries.map Prod.fst = l) ∧
      (∀ uid, uid ∉ l.filterMap (alookup st.motors) →
        alookup (listcall (Selector.many l) f st).1.units uid = alookup st.units uid) ∧
      (motorDC (1/2) (Selector.one "left") st2).2 =
        MResult.ok (CallResult.single (Value.num (1/2))) ∧
      (getMotorUnit (motorDC (1/2) (Selector.one "left") st2).1 "left").map
        MotorUnit.dutyCycle = some (1/2) ∧
      (getMotorUnit (motorDC (1/2) (Selector.one "left") st2).1 "right").map
        MotorUnit.dutyCycle = some 0 ∧
      (motorDC (3/10) Selector.all st2).2 =
        MResult.ok (CallResult.dict
          [("left", Value.num (3/10)), ("right", Value.num (3/10))]) ∧
      (getMotorUnit (motorDC (3/10) Selector.all st2).1 "left").map
        MotorUnit.dutyCycle = some (3/10) ∧
      (getMotorUnit (motorDC (3/10) Selector.all st2).1 "right").map
        MotorUnit.dutyCycle = some (3/10) := by
  refine ⟨?_, ?_, ?_, ?_, rfl, rfl, rfl, rfl, rfl, rfl⟩
  · intro hwf hn1 hn2
    refine ⟨(runAll f st.motors st []).2, rfl, ?_⟩
    have hk := runAll_keys f st.motors st [] hwf hn1 hn2 (fun k _ => rfl)
    simpa using hk
  · intro uid huid
    exact listcall_one f st n uid huid
  · intro h1 h2
    obtain ⟨entries, he1, he2⟩ := runMany_keys f l st [] h1 h2 (fun k _ => rfl)
    refine ⟨entries, ?_, by simpa using he2⟩
    simp only [listcall]
    cases hr : runMany f l st [] with
    | mk st' res =>
      rw [hr] at he1
      simp only at he1
      rw [he1]
  · intro uid huid
    have hu := runMany_untouched f l st [] uid huid
    simp only [listcall]
    cases hr : runMany f l st [] with
    | mk st' res =>
      rw [hr] at hu
      cases res with
      | ok entries => exact hu
      | error e => exact hu

/-- C6 witness: the shape facts instantiated on the two-motor set with
`motorDC(1/2)`: all-dict keyed `left`, `right`; single unwrapped; list dict
keyed by the list; the unaddressed unit untouched. -/
theorem dispatch_result_shapes_witness :
    (∃ entries, listcall Selector.all (unitDC (1/2)) st2 =
        ((runAll (unitDC (1/2)) st2.motors st2 []).1, MResult.ok (CallResult.dict entries)) ∧
        entries.map Prod.fst = st2.motors.map Prod.fst) ∧
      listcall (Selector.one "left") (unitDC (1/2)) st2 =
        ((applyMethod (unitDC (1/2)) 0 st2).1,
          MResult.ok (CallResult.single (applyMethod (unitDC (1/2)) 0 st2).2)) ∧
      (∃ entries, (listcall (Selector.many ["left"]) (unitDC (1/2)) st2).2 =
        MResult.ok (CallResult.dict entries) ∧ entries.map Prod.fst = ["left"]) ∧
      alookup (listcall (Selector.many ["left"]) (unitDC (1/2)) st2).1.units 1 =
        alookup st2.units 1 := by
  have h := dispatch_result_shapes (unitDC (1/2)) st2 "left" ["left"]
  exact ⟨h.1 (by decide) (by decide) (by decide),
    h.2.1 0 (by decide), h.2.2.1 (by decide) (by decide), h.2.2.2.1 1 (by decide)⟩

end Pimotors
